import Mathlib

/-
Verification of the MarketDataCleaner pipeline (src/src/cleaner/cleaner.py).

The pipeline is embedded shallowly: a table is a `List` of rows, a cell is an
`Option String` (a CSV cell that is present, or missing / NaN), numeric cells
after coercion are `Option Rat`, and dates after parsing are `Option YMD`.
Each stage of `MarketDataCleaner.clean` is translated into a Lean function:

  * `normalizeRow`    — `astype(str).str.strip()` on Symbol / InstrumentType /
                        Exchange, then `replace('', pd.NA)` on Exchange;
  * `dotFixRow`       — the `fix_dot_in_symbol` loop (`rsplit('.', 1)`);
  * `rowFilterStage`  — `dropna(how='all')` followed by `drop_duplicates()`;
  * `coerceRow`       — `pd.to_numeric(..., errors='coerce')` on the six
                        numeric columns;
  * `completenessStage` — `dropna(subset=price_cols + ['Date'])`, then
                        `to_datetime(..., errors='coerce')` and `notnull()`;
  * `effectiveRef` / `validateStage` — the `Status == 'Active'` restriction and
                        the inner `merge` on (Symbol, InstrumentType, Exchange);
  * `clean` / `get_clean_data` — the stateful methods, with the in-place
                        trimming of `self.instrument_df` that `clean` performs.

pandas conventions that matter and are reflected here: `astype(str)` turns a
missing value into the string "nan"; `merge` treats missing key cells on both
sides as equal (so `none = none` key matching is faithful); an inner merge
emits one output row per matching right-hand row.
-/

namespace MDC

/-- Whitespace recognised by the model of `str.strip`. -/
def isWs (c : Char) : Bool := c = ' ' || c = '\t' || c = '\n' || c = '\r'

/-- Strip leading and trailing whitespace from a character list. -/
def stripChars (l : List Char) : List Char :=
  ((l.dropWhile isWs).reverse.dropWhile isWs).reverse

/-- Model of Python `str.strip()`. -/
def strip (s : String) : String := String.mk (stripChars s.toList)

/-- Model of `astype(str)` on one cell: pandas renders a missing value (NaN)
as the string "nan". -/
def toStr : Option String → String
  | none => "nan"
  | some s => s

/-- One raw market row: the ten columns of the market CSV, each possibly
missing. -/
structure Row where
  Symbol : Option String
  InstrumentType : Option String
  Exchange : Option String
  OpenPrice : Option String
  HighPrice : Option String
  LowPrice : Option String
  ClosePrice : Option String
  Volume : Option String
  OpenInterest : Option String
  Date : Option String
deriving DecidableEq, Repr

/-- One reference (instrument catalog) row. -/
structure RefRow where
  Symbol : Option String
  InstrumentType : Option String
  Exchange : Option String
  Status : Option String
deriving DecidableEq, Repr

/-- Year-month-day, the model of a parsed calendar date. -/
abbrev YMD := Nat × Nat × Nat

/-- Value of a digit character. -/
def digitVal (c : Char) : Nat := c.toNat - '0'.toNat

/-- Interpret a non-empty all-digit character list as a natural number. -/
def digitsToNat (l : List Char) : Option Nat :=
  if l ≠ [] ∧ l.all Char.isDigit then
    some (l.foldl (fun n c => 10 * n + digitVal c) 0)
  else none

/-- Split a character list at its last '.', the model of
`rsplit('.', 1)`: returns `none` when no dot occurs, otherwise the parts
before and after the last dot. -/
def rsplitDot : List Char → Option (List Char × List Char)
  | [] => none
  | c :: cs =>
    match rsplitDot cs with
    | some (a, b) => some (c :: a, b)
    | none => if c = '.' then some ([], cs) else none

/-- Model of `pd.to_numeric(..., errors='coerce')` on one string cell:
an optional sign, an integer part, and an optional fractional part. -/
def parseNumeric (s : String) : Option Rat :=
  let t := stripChars s.toList
  let signed : Bool × List Char :=
    match t with
    | '-' :: rest => (true, rest)
    | _ => (false, t)
  match rsplitDot signed.2 with
  | none =>
    (digitsToNat signed.2).map fun n =>
      if signed.1 then -(n : Rat) else (n : Rat)
  | some (a, b) =>
    match digitsToNat a, digitsToNat b with
    | some n, some f =>
      let v : Rat := (n : Rat) + (f : Rat) / (10 : Rat) ^ b.length
      some (if signed.1 then -v else v)
    | _, _ => none

/-- Split a character list on a separator character (like `str.split`). -/
def splitOn (sep : Char) : List Char → List (List Char)
  | [] => [[]]
  | c :: rest =>
    match splitOn sep rest with
    | [] => if c = sep then [[], []] else [[c]]
    | h :: t => if c = sep then [] :: h :: t else (c :: h) :: t

/-- Model of `pd.to_datetime(..., errors='coerce')` on one string cell:
an ISO `Y-M-D` date with a plausible month and day. -/
def parseDate (s : String) : Option YMD :=
  match splitOn '-' (stripChars s.toList) with
  | [y, m, d] =>
    match digitsToNat y, digitsToNat m, digitsToNat d with
    | some yy, some mm, some dd =>
      if 1 ≤ mm ∧ mm ≤ 12 ∧ 1 ≤ dd ∧ dd ≤ 31 then some (yy, mm, dd) else none
    | _, _, _ => none
  | _ => none

/-- The string-normalisation step of `clean`: `astype(str).str.strip()` on
Symbol, InstrumentType and Exchange, then `replace('', pd.NA)` on Exchange. -/
def normalizeRow (r : Row) : Row :=
  let ex := strip (toStr r.Exchange)
  { r with
    Symbol := some (strip (toStr r.Symbol)),
    InstrumentType := some (strip (toStr r.InstrumentType)),
    Exchange := if ex = "" then none else some ex }

/-- The `fix_dot_in_symbol` correction on one row: if the Symbol contains a
'.', split at the last dot; when both parts are non-empty, the left part
becomes the Symbol and the right part overwrites the Exchange. -/
def dotFixRow (r : Row) : Row :=
  match r.Symbol with
  | none => r
  | some s =>
    match rsplitDot s.toList with
    | none => r
    | some (a, b) =>
      if a ≠ [] ∧ b ≠ [] then
        { r with Symbol := some (String.mk a), Exchange := some (String.mk b) }
      else r

/-- `dropna(how='all')` test: every one of the ten cells is missing. -/
def rowAllNA (r : Row) : Bool :=
  r.Symbol.isNone && r.InstrumentType.isNone && r.Exchange.isNone &&
  r.OpenPrice.isNone && r.HighPrice.isNone && r.LowPrice.isNone &&
  r.ClosePrice.isNone && r.Volume.isNone && r.OpenInterest.isNone &&
  r.Date.isNone

/-- Helper for `dropDuplicates`: keep rows not seen before. -/
def dedupAux : List Row → List Row → List Row
  | _, [] => []
  | seen, r :: rest =>
    if r ∈ seen then dedupAux seen rest else r :: dedupAux (r :: seen) rest

/-- Model of `drop_duplicates()`: remove exact duplicate rows, keeping the
first occurrence, preserving order. -/
def dropDuplicates (t : List Row) : List Row := dedupAux [] t

/-- Normalisation stage of `clean`: string normalisation, then the optional
dot-in-symbol correction. -/
def normalizeStage (fixDot : Bool) (m : List Row) : List Row :=
  let df := m.map normalizeRow
  if fixDot then df.map dotFixRow else df

/-- Row-filter stage of `clean`: `dropna(how='all')` then
`drop_duplicates()`. -/
def rowFilterStage (df : List Row) : List Row :=
  dropDuplicates (df.filter fun r => !rowAllNA r)

/-- A market row after numeric coercion: the six numeric columns hold
`Option Rat`, the Date column is still the raw cell. -/
structure NRow where
  Symbol : Option String
  InstrumentType : Option String
  Exchange : Option String
  OpenPrice : Option Rat
  HighPrice : Option Rat
  LowPrice : Option Rat
  ClosePrice : Option Rat
  Volume : Option Rat
  OpenInterest : Option Rat
  Date : Option String
deriving DecidableEq, Repr

/-- A market row after date parsing: the Date column holds `Option YMD`. -/
structure CRow where
  Symbol : Option String
  InstrumentType : Option String
  Exchange : Option String
  OpenPrice : Option Rat
  HighPrice : Option Rat
  LowPrice : Option Rat
  ClosePrice : Option Rat
  Volume : Option Rat
  OpenInterest : Option Rat
  Date : Option YMD
deriving DecidableEq, Repr

/-- Numeric coercion of one row (`pd.to_numeric(..., errors='coerce')` on the
four price columns, Volume and OpenInterest). -/
def coerceRow (r : Row) : NRow :=
  { Symbol := r.Symbol, InstrumentType := r.InstrumentType,
    Exchange := r.Exchange,
    OpenPrice := r.OpenPrice.bind parseNumeric,
    HighPrice := r.HighPrice.bind parseNumeric,
    LowPrice := r.LowPrice.bind parseNumeric,
    ClosePrice := r.ClosePrice.bind parseNumeric,
    Volume := r.Volume.bind parseNumeric,
    OpenInterest := r.OpenInterest.bind parseNumeric,
    Date := r.Date }

/-- Type-coercion stage of `clean`. -/
def coerceStage (df : List Row) : List NRow := df.map coerceRow

/-- `dropna(subset=price_cols + ['Date'])` test: all four prices coerced
successfully and the raw Date cell is present. -/
def completeRow (n : NRow) : Bool :=
  n.OpenPrice.isSome && n.HighPrice.isSome && n.LowPrice.isSome &&
  n.ClosePrice.isSome && n.Date.isSome

/-- Date parsing of one row (`pd.to_datetime(..., errors='coerce')`). -/
def parseDateRow (n : NRow) : CRow :=
  { Symbol := n.Symbol, InstrumentType := n.InstrumentType,
    Exchange := n.Exchange,
    OpenPrice := n.OpenPrice, HighPrice := n.HighPrice,
    LowPrice := n.LowPrice, ClosePrice := n.ClosePrice,
    Volume := n.Volume, OpenInterest := n.OpenInterest,
    Date := n.Date.bind parseDate }

/-- Completeness stage of `clean`: drop rows missing a coerced price or the
raw Date, then parse dates and drop rows whose Date failed to parse. -/
def completenessStage (df : List NRow) : List CRow :=
  ((df.filter completeRow).map parseDateRow).filter fun c => c.Date.isSome

/-- The effective reference set: the reference table, restricted to rows with
`Status == 'Active'` when `validate_active_only` is set. -/
def effectiveRef (activeOnly : Bool) (ref : List RefRow) : List RefRow :=
  if activeOnly then ref.filter (fun q => decide (q.Status = some "Active"))
  else ref

/-- Composite-key equality used by the merge: all three key cells equal
(missing keys match missing keys, as in a pandas merge). -/
def tripleMatches (q : RefRow) (s i e : Option String) : Bool :=
  decide (q.Symbol = s) && decide (q.InstrumentType = i) &&
  decide (q.Exchange = e)

/-- Reference-validation stage of `clean`: the inner
`merge(ref[['Symbol', 'InstrumentType', 'Exchange']], on=..., how='inner')`.
Each market row produces one output row per matching reference row, in
left-frame order. -/
def validateStage (df : List CRow) (ref : List RefRow) : List CRow :=
  df.flatMap fun r =>
    (ref.filter fun q =>
      tripleMatches q r.Symbol r.InstrumentType r.Exchange).map fun _ => r

/-- The in-place trimming `clean` applies to `self.instrument_df`:
`astype(str).str.strip()` on the Symbol and InstrumentType columns. -/
def normalizeRefRow (q : RefRow) : RefRow :=
  { q with
    Symbol := some (strip (toStr q.Symbol)),
    InstrumentType := some (strip (toStr q.InstrumentType)) }

/-- The whole body of `clean` on a loaded market table and the reference
table as it stands when `clean` is entered (the reference copy is taken, and
Status-filtered, before the in-place trimming of the stored table). -/
def cleanPipeline (fixDot activeOnly : Bool) (m : List Row)
    (ref : List RefRow) : List CRow :=
  validateStage
    (completenessStage (coerceStage (rowFilterStage (normalizeStage fixDot m))))
    (effectiveRef activeOnly ref)

/-- The `MarketDataCleaner` object: configuration flags and the three data
placeholders. -/
structure MarketDataCleaner where
  validate_active_only : Bool
  track_dropped_rows : Bool
  fix_dot_in_symbol : Bool
  market_df : Option (List Row)
  instrument_df : Option (List RefRow)
  cleaned_df : Option (List CRow)
deriving DecidableEq, Repr

/-- `MarketDataCleaner.clean`: fails with the "not loaded" `ValueError` unless
both tables are present; otherwise runs the pipeline, stores the cleaned
table, and (a side effect of the source) trims the stored reference table's
Symbol and InstrumentType columns in place. -/
def clean (st : MarketDataCleaner) : Except String MarketDataCleaner :=
  match st.market_df, st.instrument_df with
  | some m, some ref =>
    .ok { st with
          cleaned_df :=
            some (cleanPipeline st.fix_dot_in_symbol st.validate_active_only
                    m ref),
          instrument_df := some (ref.map normalizeRefRow) }
  | _, _ => .error "Data not loaded. Call load_data() first."

/-- `MarketDataCleaner.get_clean_data`: fails with the "not cleaned yet"
`ValueError` unless a cleaned table is present. -/
def get_clean_data (st : MarketDataCleaner) : Except String (List CRow) :=
  match st.cleaned_df with
  | some d => .ok d
  | none => .error "Data has not been cleaned yet. Call clean() first."

/-- Run `clean` and keep the resulting state (the state is unchanged when
`clean` raises). -/
def afterClean (st : MarketDataCleaner) : MarketDataCleaner :=
  match clean st with
  | .ok s => s
  | .error _ => st

/-- A market row with the given identifier cells and well-formed numeric and
date cells, used for concrete test inputs. -/
def mkRow (sy it ex : Option String) : Row :=
  { Symbol := sy, InstrumentType := it, Exchange := ex,
    OpenPrice := some "150", HighPrice := some "155",
    LowPrice := some "149", ClosePrice := some "154",
    Volume := some "1000", OpenInterest := some "10",
    Date := some "2024-04-01" }

/-- A reference row with the given cells, used for concrete test inputs. -/
def mkRef (sy it ex st : Option String) : RefRow :=
  { Symbol := sy, InstrumentType := it, Exchange := ex, Status := st }


/-! ### Facts about `rsplitDot` (the `rsplit('.', 1)` model) -/

theorem rsplitDot_eq_none {l : List Char} :
    rsplitDot l = none ↔ '.' ∉ l := by
  induction l with
  | nil => simp [rsplitDot]
  | cons c cs ih =>
    simp only [rsplitDot]
    cases hcs : rsplitDot cs with
    | some p =>
      obtain ⟨a, b⟩ := p
      rw [hcs] at ih
      have hmem : '.' ∈ cs := by
        by_contra hn
        exact absurd (ih.mpr hn) (by simp)
      constructor
      · intro hnone
        exact absurd hnone (by simp)
      · intro hnotin
        exact absurd (List.mem_cons_of_mem c hmem) hnotin
    | none =>
      rw [hcs] at ih
      have hcsd : '.' ∉ cs := ih.mp rfl
      by_cases hc : c = '.'
      · subst hc
        rw [if_pos rfl]
        constructor
        · intro hnone
          exact absurd hnone (by simp)
        · intro hnotin
          exact absurd (List.mem_cons_self _ _) hnotin
      · rw [if_neg hc]
        constructor
        · intro _ hmem
          rcases List.mem_cons.mp hmem with h1 | h2
          · exact hc h1.symm
          · exact hcsd h2
        · intro _
          rfl

theorem rsplitDot_eq_some {l a b : List Char}
    (h : rsplitDot l = some (a, b)) : l = a ++ '.' :: b ∧ '.' ∉ b := by
  induction l generalizing a b with
  | nil => exact absurd h (by simp [rsplitDot])
  | cons c cs ih =>
    simp only [rsplitDot] at h
    cases hcs : rsplitDot cs with
    | some p =>
      obtain ⟨a', b'⟩ := p
      rw [hcs] at h
      have h2 : some (c :: a', b') = some (a, b) := h
      have h3 := Option.some.inj h2
      have ha : c :: a' = a := congrArg Prod.fst h3
      have hb : b' = b := congrArg Prod.snd h3
      obtain ⟨h1, hdot⟩ := ih hcs
      rw [← ha, ← hb, h1]
      exact ⟨rfl, hdot⟩
    | none =>
      rw [hcs] at h
      by_cases hc : c = '.'
      · subst hc
        have h2 : some (([] : List Char), cs) = some (a, b) := by
          have h' : (if ('.' : Char) = '.' then some (([] : List Char), cs)
              else none) = some (a, b) := h
          rwa [if_pos rfl] at h'
        have h3 := Option.some.inj h2
        have ha : ([] : List Char) = a := congrArg Prod.fst h3
        have hb : cs = b := congrArg Prod.snd h3
        rw [← ha, ← hb]
        exact ⟨rfl, rsplitDot_eq_none.mp hcs⟩
      · have h2 : (none : Option (List Char × List Char)) = some (a, b) := by
          have h' : (if c = '.' then some (([] : List Char), cs)
              else none) = some (a, b) := h
          rwa [if_neg hc] at h'
        exact absurd h2 (by simp)

/-! ### C3 — reference trimming and the triple match -/

/-- Failing input for C3: one market row and a reference row whose Symbol
carries a leading space. -/
def c3m : List Row := [mkRow (some "AAPL") (some "Stock") (some "NASDAQ")]

/-- C3 failing reference table. -/
def c3ref : List RefRow :=
  [mkRef (some " AAPL") (some "Stock") (some "NASDAQ") (some "Active")]

/-- C3: the claim says the reference table used for the triple match is
whitespace-trimmed before matching, so the market row (whose trimmed triple
equals the trimmed reference triple) should be kept.  In the code the
reference copy used by the merge is taken before the in-place trimming of
`self.instrument_df`, so on the first `clean()` the untrimmed Symbol
" AAPL" fails to match and the row is dropped (empty output); had the
trimmed reference been used, the row would have been kept. -/
theorem c3_thm :
    cleanPipeline false true c3m c3ref = [] ∧
    (cleanPipeline false true c3m (c3ref.map normalizeRefRow)).length = 1 := by
  decide

/-! ### C4 — the dot-in-symbol correction -/

/-- C4 counterexample row: a dotted Symbol together with a non-blank
Exchange. -/
def c4row : Row := mkRow (some "AAPL.NYSE") (some "Stock") (some "LSE")

/-- C4: counterexample.  The claim says a row with a dot in Symbol but a
non-blank Exchange is left untouched; the code rewrites it anyway,
overwriting the Exchange "LSE" with "NYSE". -/
theorem c4_cex :
    c4row.Exchange = some "LSE" ∧
    (normalizeStage true [c4row]).map (fun r => r.Exchange) = [some "NYSE"] := by
  decide

/-- C4 (amended): when `fix_dot_in_symbol` is enabled, `clean` rewrites
exactly those rows whose Symbol contains a '.' and whose split at the last
'.' has two non-empty parts — with no condition on the Exchange column: the
split is at the last dot (the Symbol equals left ++ "." ++ right and the
right part contains no further dot); when both parts are non-empty the left
part becomes the Symbol and the right part overwrites the Exchange; in every
other case the row is left untouched. -/
theorem c4_thm (r : Row) (s : String) (hs : r.Symbol = some s) :
    (rsplitDot s.toList = none → dotFixRow r = r) ∧
    (∀ a b : List Char, rsplitDot s.toList = some (a, b) →
      s.toList = a ++ '.' :: b ∧ '.' ∉ b ∧
      (a ≠ [] → b ≠ [] →
        dotFixRow r =
          { r with Symbol := some (String.mk a),
                   Exchange := some (String.mk b) }) ∧
      ((a = [] ∨ b = []) → dotFixRow r = r)) := by
  constructor
  · intro hnone
    have hnone' : rsplitDot s.data = none := hnone
    simp [dotFixRow, hs, hnone']
  · intro a b hab
    obtain ⟨hsplit, hdot⟩ := rsplitDot_eq_some hab
    have hab' : rsplitDot s.data = some (a, b) := hab
    refine ⟨hsplit, hdot, ?_, ?_⟩
    · intro ha hb
      simp [dotFixRow, hs, hab', ha, hb]
    · intro hor
      have hcond : ¬(¬a = [] ∧ ¬b = []) := by
        rcases hor with h1 | h1
        · intro hcontra
          exact hcontra.1 h1
        · intro hcontra
          exact hcontra.2 h1
      simp [dotFixRow, hs, hab', hcond]

/-- C4 witness: the amended theorem applied at the counterexample row. -/
theorem c4_wit :
    dotFixRow c4row =
      { c4row with Symbol := some "AAPL", Exchange := some "NYSE" } := by
  have h := (c4_thm c4row "AAPL.NYSE" rfl).2 "AAPL".toList "NYSE".toList
    (by decide)
  have h2 := h.2.2.1 (by decide) (by decide)
  exact h2.trans (by decide)

/-! ### C9 — the state machine -/

/-- C9: `clean` raises the "not loaded" state error exactly when one of the
two tables is absent, and `get_clean_data` raises the "not cleaned yet"
state error exactly when no cleaned table is present; in every other state
neither call raises a state error.  (When `clean` raises, no new state is
produced, so the cleaned output stays absent.) -/
theorem c9_thm (st : MarketDataCleaner) :
    ((∃ e, clean st = .error e) ↔
      (st.market_df = none ∨ st.instrument_df = none)) ∧
    ((∃ e, get_clean_data st = .error e) ↔ st.cleaned_df = none) := by
  constructor
  · cases hm : st.market_df with
    | none => simp [clean, hm]
    | some m =>
      cases hi : st.instrument_df with
      | none => simp [clean, hm, hi]
      | some ref => simp [clean, hm, hi]
  · cases hc : st.cleaned_df with
    | none => simp [get_clean_data, hc]
    | some d => simp [get_clean_data, hc]

/-! ### C10 — missing identifier cells become the string "nan" -/

/-- C10 counterexample row: the Symbol contains a dot and the Exchange cell
is missing. -/
def c10cexRow : Row := mkRow (some "AAPL.NYSE") (some "Stock") none

/-- C10 counterexample reference whose Exchange is the string "nan" — the
key value the claim predicts for the missing-Exchange row. -/
def c10refNan : List RefRow :=
  [mkRef (some "AAPL") (some "Stock") (some "nan") (some "Active")]

/-- C10 counterexample reference whose Exchange is "NYSE" — the key value
the dot-fix actually leaves in the row. -/
def c10refNyse : List RefRow :=
  [mkRef (some "AAPL") (some "Stock") (some "NYSE") (some "Active")]

/-- C10: counterexample.  The claim says a row whose Exchange cell is
missing is matched against the reference using the string "nan" as its key
value in that column.  With `fix_dot_in_symbol` enabled this is false: the
missing Exchange is rendered "nan" (not the empty string), so the dot-fix
loop overwrites it with the symbol's dot-split part before the merge — the
row fails to match a reference row with Exchange "nan" and instead matches
one with Exchange "NYSE". -/
theorem c10_cex :
    c10cexRow.Exchange = none ∧
    (cleanPipeline true true [c10cexRow] c10refNan).length = 0 ∧
    (cleanPipeline true true [c10cexRow] c10refNyse).length = 1 := by
  decide

/-- C10 (amended): for a loaded market row whose Symbol, InstrumentType or
Exchange cell is missing, the normalisation step converts that cell to the
literal string "nan" (the string conversion of the missing value), so no
normalised row is all-missing and the subsequent `dropna(how='all')` never
treats it as missing; when `fix_dot_in_symbol` is disabled, the row as it
reaches the reference merge (`parseDateRow ∘ coerceRow ∘ normalizeRow`,
whose Symbol/InstrumentType/Exchange fields are exactly the merge keys used
by `validateStage`) carries the string "nan" as its key value in that
column.  With `fix_dot_in_symbol` enabled the dot-fix may overwrite the
Symbol and an Exchange rendered "nan" with the dot-split parts before the
merge (see the counterexample). -/
theorem c10_thm (r : Row) :
    (r.Symbol = none → (normalizeRow r).Symbol = some "nan") ∧
    (r.InstrumentType = none → (normalizeRow r).InstrumentType = some "nan") ∧
    (r.Exchange = none → (normalizeRow r).Exchange = some "nan") ∧
    rowAllNA (normalizeRow r) = false ∧
    (r.Symbol = none →
      (parseDateRow (coerceRow (normalizeRow r))).Symbol = some "nan") ∧
    (r.InstrumentType = none →
      (parseDateRow (coerceRow (normalizeRow r))).InstrumentType =
        some "nan") ∧
    (r.Exchange = none →
      (parseDateRow (coerceRow (normalizeRow r))).Exchange = some "nan") := by
  have hS : r.Symbol = none → (normalizeRow r).Symbol = some "nan" := by
    intro h
    simp only [normalizeRow, h]
    decide
  have hI : r.InstrumentType = none →
      (normalizeRow r).InstrumentType = some "nan" := by
    intro h
    simp only [normalizeRow, h]
    decide
  have hE : r.Exchange = none → (normalizeRow r).Exchange = some "nan" := by
    intro h
    simp only [normalizeRow, h]
    decide
  refine ⟨hS, hI, hE, by simp [rowAllNA, normalizeRow], ?_, ?_, ?_⟩
  · intro h
    have hfield : (parseDateRow (coerceRow (normalizeRow r))).Symbol =
        (normalizeRow r).Symbol := rfl
    rw [hfield]
    exact hS h
  · intro h
    have hfield : (parseDateRow (coerceRow (normalizeRow r))).InstrumentType =
        (normalizeRow r).InstrumentType := rfl
    rw [hfield]
    exact hI h
  · intro h
    have hfield : (parseDateRow (coerceRow (normalizeRow r))).Exchange =
        (normalizeRow r).Exchange := rfl
    rw [hfield]
    exact hE h

/-- C10 witness row: every cell missing. -/
def c10row : Row := ⟨none, none, none, none, none, none, none, none, none, none⟩

/-- C10 witness: the amended theorem applied to the all-missing row. -/
theorem c10_wit :
    (normalizeRow c10row).Symbol = some "nan" ∧
    (normalizeRow c10row).InstrumentType = some "nan" ∧
    (normalizeRow c10row).Exchange = some "nan" ∧
    rowAllNA (normalizeRow c10row) = false ∧
    (parseDateRow (coerceRow (normalizeRow c10row))).Symbol = some "nan" ∧
    (parseDateRow (coerceRow (normalizeRow c10row))).InstrumentType =
      some "nan" ∧
    (parseDateRow (coerceRow (normalizeRow c10row))).Exchange = some "nan" :=
  ⟨(c10_thm c10row).1 rfl, (c10_thm c10row).2.1 rfl,
   (c10_thm c10row).2.2.1 rfl, (c10_thm c10row).2.2.2.1,
   (c10_thm c10row).2.2.2.2.1 rfl, (c10_thm c10row).2.2.2.2.2.1 rfl,
   (c10_thm c10row).2.2.2.2.2.2 rfl⟩

/-! ### Facts about `dedupAux` / `dropDuplicates` -/

theorem dedupAux_sublist (l : List Row) : ∀ seen, List.Sublist (dedupAux seen l) l := by
  induction l with
  | nil => intro seen; simp [dedupAux]
  | cons r rest ih =>
    intro seen
    simp only [dedupAux]
    by_cases h : r ∈ seen
    · rw [if_pos h]
      exact (ih seen).cons r
    · rw [if_neg h]
      exact (ih (r :: seen)).cons₂ r

theorem mem_dedupAux (l : List Row) :
    ∀ seen x, x ∈ dedupAux seen l ↔ x ∈ l ∧ x ∉ seen := by
  induction l with
  | nil => intro seen x; simp [dedupAux]
  | cons r rest ih =>
    intro seen x
    simp only [dedupAux]
    by_cases h : r ∈ seen
    · rw [if_pos h, ih seen x]
      constructor
      · intro ⟨h1, h2⟩
        exact ⟨List.mem_cons_of_mem _ h1, h2⟩
      · intro ⟨h1, h2⟩
        rcases List.mem_cons.mp h1 with h1 | h1
        · subst h1
          exact absurd h h2
        · exact ⟨h1, h2⟩
    · rw [if_neg h]
      constructor
      · intro hm
        rcases List.mem_cons.mp hm with hm | hm
        · subst hm
          exact ⟨List.mem_cons_self _ _, h⟩
        · obtain ⟨h1, h2⟩ := (ih (r :: seen) x).mp hm
          exact ⟨List.mem_cons_of_mem _ h1,
            fun hc => h2 (List.mem_cons_of_mem _ hc)⟩
      · intro ⟨h1, h2⟩
        rcases List.mem_cons.mp h1 with h1 | h1
        · subst h1
          exact List.mem_cons_self _ _
        · by_cases hx : x = r
          · subst hx
            exact List.mem_cons_self _ _
          · refine List.mem_cons_of_mem _ ((ih (r :: seen) x).mpr ⟨h1, ?_⟩)
            intro hc
            rcases List.mem_cons.mp hc with hc | hc
            · exact hx hc
            · exact h2 hc

theorem nodup_dedupAux (l : List Row) : ∀ seen, (dedupAux seen l).Nodup := by
  induction l with
  | nil => intro seen; simp [dedupAux]
  | cons r rest ih =>
    intro seen
    simp only [dedupAux]
    by_cases h : r ∈ seen
    · rw [if_pos h]
      exact ih seen
    · rw [if_neg h]
      refine List.nodup_cons.mpr ⟨?_, ih (r :: seen)⟩
      intro hc
      exact ((mem_dedupAux rest (r :: seen) r).mp hc).2 (List.mem_cons_self r seen)

theorem dedupAux_seen_congr (l : List Row) :
    ∀ s₁ s₂, (∀ a, a ∈ s₁ ↔ a ∈ s₂) → dedupAux s₁ l = dedupAux s₂ l := by
  induction l with
  | nil => intro s₁ s₂ _; rfl
  | cons r rest ih =>
    intro s₁ s₂ hequiv
    simp only [dedupAux]
    by_cases h : r ∈ s₁
    · rw [if_pos h, if_pos ((hequiv r).mp h)]
      exact ih s₁ s₂ hequiv
    · rw [if_neg h, if_neg (fun hc => h ((hequiv r).mpr hc))]
      refine congrArg (r :: ·) (ih (r :: s₁) (r :: s₂) ?_)
      intro a
      simp only [List.mem_cons]
      rw [hequiv a]

theorem dedupAux_cons_seen (l : List Row) (x : Row) :
    ∀ seen, dedupAux (x :: seen) l =
      dedupAux seen (l.filter fun y => decide (y ≠ x)) := by
  induction l with
  | nil => intro seen; rfl
  | cons r rest ih =>
    intro seen
    by_cases hrx : r = x
    · subst hrx
      have h1 : r ∈ r :: seen := List.mem_cons_self r seen
      simp only [dedupAux, if_pos h1, List.filter_cons]
      rw [show (decide (r ≠ r)) = false by simp]
      simp only [Bool.false_eq_true, if_neg (by simp : ¬False)]
      exact ih seen
    · simp only [List.filter_cons]
      rw [show (decide (r ≠ x)) = true by simp [hrx]]
      simp only [if_pos rfl]
      by_cases hmem : r ∈ seen
      · have h1 : r ∈ x :: seen := List.mem_cons_of_mem x hmem
        simp only [dedupAux, if_pos h1, if_pos hmem]
        exact ih seen
      · have h1 : r ∉ x :: seen := by
          intro hc
          rcases List.mem_cons.mp hc with hc | hc
          · exact hrx hc
          · exact hmem hc
        simp only [dedupAux, if_neg h1, if_neg hmem]
        refine congrArg (r :: ·) ?_
        rw [dedupAux_seen_congr rest (r :: x :: seen) (x :: r :: seen) ?_]
        · exact ih (r :: seen)
        · intro a
          simp only [List.mem_cons]
          constructor
          · intro hc
            rcases hc with hc | hc | hc
            · exact Or.inr (Or.inl hc)
            · exact Or.inl hc
            · exact Or.inr (Or.inr hc)
          · intro hc
            rcases hc with hc | hc | hc
            · exact Or.inr (Or.inl hc)
            · exact Or.inl hc
            · exact Or.inr (Or.inr hc)

/-! ### No row is all-missing after normalisation -/

theorem rowAllNA_eq_false_of_symbol {r : Row} (h : r.Symbol.isSome = true) :
    rowAllNA r = false := by
  cases hs : r.Symbol with
  | none => rw [hs] at h; simp at h
  | some s => simp [rowAllNA, hs]

theorem dotFixRow_symbol_isSome (r : Row) :
    (dotFixRow r).Symbol.isSome = r.Symbol.isSome := by
  cases hs : r.Symbol with
  | none => simp [dotFixRow, hs]
  | some s =>
    simp only [dotFixRow, hs]
    cases hsplit : rsplitDot s.toList with
    | none => simp [hs]
    | some p =>
      obtain ⟨a, b⟩ := p
      by_cases hcond : ¬a = [] ∧ ¬b = []
      · simp [hcond, hs]
      · simp [hcond, hs]

theorem mem_normalizeStage_allNA (fixDot : Bool) (m : List Row) :
    ∀ r ∈ normalizeStage fixDot m, rowAllNA r = false := by
  intro r hr
  cases fixDot with
  | false =>
    simp only [normalizeStage, if_neg (by simp : ¬False)] at hr
    obtain ⟨x, _, hx⟩ := List.mem_map.mp hr
    subst hx
    exact rowAllNA_eq_false_of_symbol (by simp [normalizeRow])
  | true =>
    simp only [normalizeStage, if_pos rfl] at hr
    obtain ⟨y, hy, hxy⟩ := List.mem_map.mp hr
    obtain ⟨x, _, hx⟩ := List.mem_map.mp hy
    subst hxy hx
    refine rowAllNA_eq_false_of_symbol ?_
    rw [dotFixRow_symbol_isSome]
    simp [normalizeRow]

/-! ### C5 — the row-filter stage -/

/-- C5 counterexample input: a single market row whose every cell is
missing. -/
def c5row : Row := ⟨none, none, none, none, none, none, none, none, none, none⟩

/-- C5: counterexample.  The claim says the row-filter stage removes every
row all of whose columns are missing in the loaded input, yet a fully
missing row survives the stage: normalisation has already replaced its
Symbol, InstrumentType and Exchange by the string "nan", so
`dropna(how='all')` does not fire. -/
theorem c5_cex : (rowFilterStage (normalizeStage false [c5row])).length = 1 := by
  decide

/-- C5 (amended): the row-filter stage removes exact duplicate rows (all
columns equal at that point) keeping the first occurrence, and preserves the
original relative order of the remaining rows; it removes no row as fully
empty, because after normalisation every row's Symbol is a non-missing
string, so the `dropna(how='all')` filter keeps everything.  The last
conjunct is the first-occurrence recursion of `drop_duplicates`: the head is
kept and its later duplicates are discarded. -/
theorem c5_thm (fixDot : Bool) (m : List Row) :
    (normalizeStage fixDot m).filter (fun r => !rowAllNA r) =
      normalizeStage fixDot m ∧
    List.Sublist (rowFilterStage (normalizeStage fixDot m)) (normalizeStage fixDot m) ∧
    (rowFilterStage (normalizeStage fixDot m)).Nodup ∧
    (∀ r : Row, r ∈ rowFilterStage (normalizeStage fixDot m) ↔
      r ∈ normalizeStage fixDot m) ∧
    (∀ (x : Row) (xs : List Row),
      dropDuplicates (x :: xs) =
        x :: dropDuplicates (xs.filter fun y => decide (y ≠ x))) := by
  have hfilter : (normalizeStage fixDot m).filter (fun r => !rowAllNA r) =
      normalizeStage fixDot m := by
    rw [List.filter_eq_self]
    intro a ha
    rw [mem_normalizeStage_allNA fixDot m a ha]
    rfl
  refine ⟨hfilter, ?_, ?_, ?_, ?_⟩
  · rw [rowFilterStage, hfilter]
    exact dedupAux_sublist _ []
  · exact nodup_dedupAux _ []
  · intro r
    rw [rowFilterStage, hfilter, dropDuplicates, mem_dedupAux]
    simp
  · intro x xs
    have h0 : dropDuplicates (x :: xs) = x :: dedupAux [x] xs := by
      simp [dropDuplicates, dedupAux]
    rw [h0, dedupAux_cons_seen]
    rfl

/-! ### Stage length bounds -/

theorem length_normalizeStage (fixDot : Bool) (m : List Row) :
    (normalizeStage fixDot m).length = m.length := by
  cases fixDot <;> simp [normalizeStage]

theorem length_rowFilterStage_le (df : List Row) :
    (rowFilterStage df).length ≤ df.length :=
  calc (rowFilterStage df).length
      ≤ (df.filter fun r => !rowAllNA r).length :=
        (dedupAux_sublist _ []).length_le
    _ ≤ df.length := List.length_filter_le _ _

theorem length_completenessStage_le (df : List NRow) :
    (completenessStage df).length ≤ df.length :=
  calc (completenessStage df).length
      ≤ ((df.filter completeRow).map parseDateRow).length :=
        List.length_filter_le _ _
    _ = (df.filter completeRow).length := List.length_map _ _
    _ ≤ df.length := List.length_filter_le _ _

theorem length_validateStage_le (df : List CRow) (ref : List RefRow)
    (h : ∀ s i e : Option String,
      ref.countP (fun q => tripleMatches q s i e) ≤ 1) :
    (validateStage df ref).length ≤ df.length := by
  induction df with
  | nil => simp [validateStage]
  | cons r rest ih =>
    simp only [validateStage] at ih ⊢
    rw [List.flatMap_cons, List.length_append, List.length_map,
      List.length_cons]
    have h1 : (ref.filter fun q =>
        tripleMatches q r.Symbol r.InstrumentType r.Exchange).length ≤ 1 := by
      rw [← List.countP_eq_length_filter]
      exact h r.Symbol r.InstrumentType r.Exchange
    omega

/-! ### C1 — the reference-validation stage and row counts -/

/-- C1 counterexample market table: one well-formed row. -/
def c1m : List Row := [mkRow (some "AAPL") (some "Stock") (some "NASDAQ")]

/-- C1 counterexample reference table: the matching triple occurs twice. -/
def c1ref : List RefRow :=
  [mkRef (some "AAPL") (some "Stock") (some "NASDAQ") (some "Active"),
   mkRef (some "AAPL") (some "Stock") (some "NASDAQ") (some "Active")]

/-- C1: counterexample.  The claim says a market row whose triple matches
multiple reference rows appears at most once and the output row count never
exceeds the post-deduplication count; the code performs a full inner merge,
so one market row matching two reference rows appears twice — the output has
two rows from a one-row input. -/
theorem c1_cex :
    c1m.length = 1 ∧ (cleanPipeline false true c1m c1ref).length = 2 := by
  decide

/-- C1 (amended): the inner merge emits one output row per matching
effective-reference row, so whenever each (Symbol, InstrumentType, Exchange)
triple matches at most one row of the effective reference set, the
reference-validation stage never increases the row count: the final output
row count is at most the post-deduplication row count, which is at most the
raw input row count. -/
theorem c1_thm (fixDot activeOnly : Bool) (m : List Row) (ref : List RefRow)
    (h : ∀ s i e : Option String,
      (effectiveRef activeOnly ref).countP
        (fun q => tripleMatches q s i e) ≤ 1) :
    (cleanPipeline fixDot activeOnly m ref).length ≤
      (rowFilterStage (normalizeStage fixDot m)).length ∧
    (rowFilterStage (normalizeStage fixDot m)).length ≤ m.length := by
  constructor
  · calc (cleanPipeline fixDot activeOnly m ref).length
        ≤ (completenessStage (coerceStage
            (rowFilterStage (normalizeStage fixDot m)))).length :=
          length_validateStage_le _ _ h
      _ ≤ (coerceStage (rowFilterStage (normalizeStage fixDot m))).length :=
          length_completenessStage_le _
      _ = (rowFilterStage (normalizeStage fixDot m)).length :=
          List.length_map _ _
  · calc (rowFilterStage (normalizeStage fixDot m)).length
        ≤ (normalizeStage fixDot m).length := length_rowFilterStage_le _
      _ = m.length := length_normalizeStage fixDot m

/-- C1 witness market table. -/
def c1wm : List Row := [mkRow (some "AAPL") (some "Stock") (some "NASDAQ")]

/-- C1 witness reference table: a single matching triple. -/
def c1wref : List RefRow :=
  [mkRef (some "AAPL") (some "Stock") (some "NASDAQ") (some "Active")]

/-- C1 witness: the amended theorem at a concrete input whose effective
reference set has one row, so every triple matches at most once. -/
theorem c1_wit :
    (cleanPipeline false true c1wm c1wref).length ≤
      (rowFilterStage (normalizeStage false c1wm)).length ∧
    (rowFilterStage (normalizeStage false c1wm)).length ≤ c1wm.length := by
  refine c1_thm false true c1wm c1wref ?_
  intro s i e
  have hlen : (effectiveRef true c1wref).length = 1 := by decide
  calc (effectiveRef true c1wref).countP (fun q => tripleMatches q s i e)
      ≤ (effectiveRef true c1wref).length := List.countP_le_length _
    _ = 1 := hlen

/-! ### C2 — idempotence of `clean` -/

/-- C2 counterexample market table. -/
def c2m : List Row := [mkRow (some "AAPL") (some "Stock") (some "NASDAQ")]

/-- C2 counterexample reference table: the Symbol carries a leading space,
so the first `clean` trims the stored reference and the second run matches
differently. -/
def c2ref : List RefRow :=
  [mkRef (some " AAPL") (some "Stock") (some "NASDAQ") (some "Active")]

/-- C2 counterexample loaded state. -/
def c2st : MarketDataCleaner := ⟨true, false, false, some c2m, some c2ref, none⟩

/-- C2: counterexample.  Calling `clean` twice on the same loaded state does
not yield identical cleaned outputs: the first call trims
`self.instrument_df` in place after taking its merge copy, so the second
call matches against the trimmed reference (first output: no rows; second
output: one row). -/
theorem c2_cex :
    (get_clean_data (afterClean (afterClean c2st))).toOption ≠
      (get_clean_data (afterClean c2st)).toOption := by
  decide

/-- C2 (amended): calling `clean` twice in succession on the same loaded
state yields identical cleaned outputs provided every reference row's Symbol
and InstrumentType are already normalised (present, and fixed by trimming) —
in that case the in-place trimming of the stored reference table is the
identity and the second run repeats the first. -/
theorem c2_thm (st st1 st2 : MarketDataCleaner) (m : List Row)
    (ref : List RefRow)
    (hm : st.market_df = some m) (hr : st.instrument_df = some ref)
    (href : ∀ q ∈ ref, normalizeRefRow q = q)
    (h1 : clean st = .ok st1) (h2 : clean st1 = .ok st2) :
    get_clean_data st2 = get_clean_data st1 := by
  have hid : ref.map normalizeRefRow = ref := by
    have h' : ∀ q ∈ ref, normalizeRefRow q = id q := fun q hq => href q hq
    rw [List.map_congr_left h', List.map_id]
  simp only [clean, hm, hr, hid] at h1
  rw [Except.ok.injEq] at h1
  subst h1
  simp only [clean, hm, hid] at h2
  rw [Except.ok.injEq] at h2
  subst h2
  rfl

/-- C2 witness market table. -/
def c2wm : List Row := [mkRow (some "AAPL") (some "Stock") (some "NASDAQ")]

/-- C2 witness reference table: already trimmed. -/
def c2wref : List RefRow :=
  [mkRef (some "AAPL") (some "Stock") (some "NASDAQ") (some "Active")]

/-- C2 witness loaded state. -/
def c2wst : MarketDataCleaner :=
  ⟨true, false, false, some c2wm, some c2wref, none⟩

/-- C2 witness: on a trimmed reference table, two runs agree. -/
theorem c2_wit :
    get_clean_data (afterClean (afterClean c2wst)) =
      get_clean_data (afterClean c2wst) :=
  c2_thm c2wst (afterClean c2wst) (afterClean (afterClean c2wst)) c2wm c2wref
    rfl rfl (by decide) rfl rfl

/-! ### C6 — output triples come from the effective reference set -/

/-- C6: every row of the cleaned output has its (Symbol, InstrumentType,
Exchange) triple in the effective reference set — the reference table used
by this `clean` call restricted to `Status == 'Active'` rows when
`validate_active_only` is set, the whole table otherwise. -/
theorem c6_thm (fixDot activeOnly : Bool) (m : List Row) (ref : List RefRow)
    (r : CRow) (h : r ∈ cleanPipeline fixDot activeOnly m ref) :
    ∃ q ∈ effectiveRef activeOnly ref,
      q.Symbol = r.Symbol ∧ q.InstrumentType = r.InstrumentType ∧
      q.Exchange = r.Exchange := by
  simp only [cleanPipeline, validateStage] at h
  obtain ⟨b, hb, hrb⟩ := List.mem_flatMap.mp h
  obtain ⟨q, hq, hqr⟩ := List.mem_map.mp hrb
  have hbr : b = r := hqr
  subst hbr
  have hq' := List.mem_filter.mp hq
  refine ⟨q, hq'.1, ?_⟩
  have hmatch := hq'.2
  simp only [tripleMatches, Bool.and_eq_true, decide_eq_true_eq] at hmatch
  exact ⟨hmatch.1.1, hmatch.1.2, hmatch.2⟩

/-- C6 witness market table. -/
def c6m : List Row := [mkRow (some "AAPL") (some "Stock") (some "NASDAQ")]

/-- C6 witness reference table. -/
def c6ref : List RefRow :=
  [mkRef (some "AAPL") (some "Stock") (some "NASDAQ") (some "Active")]

/-- C6 witness output row (the pipeline's output on the witness input). -/
def c6out : CRow :=
  ⟨some "AAPL", some "Stock", some "NASDAQ", some 150, some 155, some 149,
   some 154, some 1000, some 10, some (2024, 4, 1)⟩

/-- C6 witness: the theorem applied to the concrete output row. -/
theorem c6_wit :
    ∃ q ∈ effectiveRef true c6ref,
      q.Symbol = c6out.Symbol ∧ q.InstrumentType = c6out.InstrumentType ∧
      q.Exchange = c6out.Exchange :=
  c6_thm false true c6m c6ref c6out (by decide)

/-! ### C7 — the completeness filter -/

/-- C7: the completeness filter (the `dropna` over the four price columns
and Date, combined with the date-parse filter) keeps exactly the rows whose
four coerced prices are present and whose Date is present and parseable;
Volume and OpenInterest do not occur in the kept-row predicate, so a missing
Volume or OpenInterest alone never causes a drop. -/
theorem c7_thm (df : List NRow) :
    completenessStage df =
      (df.filter fun n => n.OpenPrice.isSome && n.HighPrice.isSome &&
        n.LowPrice.isSome && n.ClosePrice.isSome &&
        (n.Date.bind parseDate).isSome).map parseDateRow := by
  have hpt : ∀ n : NRow,
      (completeRow n && (parseDateRow n).Date.isSome) =
        (n.OpenPrice.isSome && n.HighPrice.isSome && n.LowPrice.isSome &&
         n.ClosePrice.isSome && (n.Date.bind parseDate).isSome) := by
    intro n
    simp only [completeRow, parseDateRow]
    cases hd : n.Date with
    | none => simp
    | some d => simp
  rw [completenessStage, List.filter_map, List.filter_filter]
  congr 1
  refine List.filter_congr ?_
  intro n _
  simp only [Function.comp_apply]
  rw [Bool.and_comm]
  exact hpt n

/-! ### Edge-whitespace facts about `stripChars` -/

theorem head?_dropWhile_not (p : Char → Bool) (l : List Char) :
    ∀ {c}, (l.dropWhile p).head? = some c → p c = false := by
  induction l with
  | nil => intro c h; simp [List.dropWhile] at h
  | cons a t ih =>
    intro c h
    rw [List.dropWhile_cons] at h
    by_cases ha : p a = true
    · rw [if_pos ha] at h
      exact ih h
    · rw [if_neg ha] at h
      simp only [List.head?_cons, Option.some.injEq] at h
      subst h
      exact Bool.eq_false_iff.mpr ha

theorem getLast?_dropWhile (p : Char → Bool) (l : List Char)
    (h : l.dropWhile p ≠ []) : (l.dropWhile p).getLast? = l.getLast? := by
  obtain ⟨t, ht⟩ := List.dropWhile_suffix (l := l) p
  conv_rhs => rw [← ht]
  exact (List.getLast?_append_of_ne_nil t h).symm

theorem stripChars_head (l : List Char) :
    ∀ {c}, (stripChars l).head? = some c → isWs c = false := by
  intro c h
  simp only [stripChars] at h
  rw [List.head?_reverse] at h
  by_cases hne : (List.dropWhile isWs (List.dropWhile isWs l).reverse) = []
  · rw [hne] at h
    simp at h
  · rw [getLast?_dropWhile _ _ hne, List.getLast?_reverse] at h
    exact head?_dropWhile_not _ _ h

theorem stripChars_getLast (l : List Char) :
    ∀ {c}, (stripChars l).getLast? = some c → isWs c = false := by
  intro c h
  simp only [stripChars] at h
  rw [List.getLast?_reverse] at h
  exact head?_dropWhile_not _ _ h

/-- A string has no leading and no trailing whitespace. -/
def noEdgeWs (s : String) : Bool :=
  (match s.toList.head? with
   | some c => !isWs c
   | none => true) &&
  (match s.toList.getLast? with
   | some c => !isWs c
   | none => true)

theorem noEdgeWs_strip (s : String) : noEdgeWs (strip s) = true := by
  have htl : (strip s).toList = stripChars s.toList := rfl
  rw [noEdgeWs, htl, Bool.and_eq_true]
  constructor
  · cases hh : (stripChars s.toList).head? with
    | none => rfl
    | some c =>
      have hc := stripChars_head s.toList hh
      simp [hc]
  · cases hh : (stripChars s.toList).getLast? with
    | none => rfl
    | some c =>
      have hc := stripChars_getLast s.toList hh
      simp [hc]

/-! ### Membership tracing through the pipeline (no dot-fix) -/

theorem mem_cleanPipeline_noFix (activeOnly : Bool) (m : List Row)
    (ref : List RefRow) (r : CRow)
    (h : r ∈ cleanPipeline false activeOnly m ref) :
    ∃ x ∈ m, r.Symbol = (normalizeRow x).Symbol ∧
      r.InstrumentType = (normalizeRow x).InstrumentType ∧
      r.Exchange = (normalizeRow x).Exchange := by
  simp only [cleanPipeline, validateStage] at h
  obtain ⟨b, hb, hrb⟩ := List.mem_flatMap.mp h
  obtain ⟨q, hq, hqr⟩ := List.mem_map.mp hrb
  have hbr : b = r := hqr
  subst hbr
  simp only [completenessStage] at hb
  have hb1 := List.mem_filter.mp hb
  obtain ⟨nrow, hn1, hn2⟩ := List.mem_map.mp hb1.1
  have hn1' := List.mem_filter.mp hn1
  obtain ⟨row0, hr0, hrc⟩ := List.mem_map.mp hn1'.1
  have hr0f : row0 ∈ (normalizeStage false m).filter (fun r => !rowAllNA r) := by
    rw [rowFilterStage] at hr0
    exact ((mem_dedupAux _ [] row0).mp hr0).1
  have hr0n : row0 ∈ normalizeStage false m := (List.mem_filter.mp hr0f).1
  simp only [normalizeStage, Bool.false_eq_true, if_false] at hr0n
  obtain ⟨x, hx, hxe⟩ := List.mem_map.mp hr0n
  refine ⟨x, hx, ?_⟩
  subst hxe hrc hn2
  exact ⟨rfl, rfl, rfl⟩

/-! ### C8 — the whitespace invariant -/

/-- C8 counterexample market table: a dotted symbol with a space next to the
dot and a blank Exchange. -/
def c8m : List Row := [mkRow (some "A. B") (some "S") (some "")]

/-- C8 counterexample reference table (the Exchange cell, which the code
never trims, carries the matching leading space). -/
def c8ref : List RefRow :=
  [mkRef (some "A") (some "S") (some " B") (some "Active")]

/-- C8: counterexample.  With `fix_dot_in_symbol` enabled, splitting the
symbol "A. B" at its dot puts the string " B" — with a leading space — into
the Exchange column, and the row survives validation, so a cleaned output
value carries leading whitespace. -/
theorem c8_cex :
    (cleanPipeline true true c8m c8ref).map (fun r => r.Exchange) =
      [some " B"] ∧
    noEdgeWs " B" = false := by
  decide

/-- C8 (amended): with `fix_dot_in_symbol` disabled (either setting of the
other flags), no value in the Symbol, InstrumentType or Exchange column of
the cleaned output has leading or trailing whitespace; with the dot-fix
enabled the invariant can fail (see the counterexample). -/
theorem c8_thm (activeOnly : Bool) (m : List Row) (ref : List RefRow)
    (r : CRow) (h : r ∈ cleanPipeline false activeOnly m ref) :
    (∀ s, r.Symbol = some s → noEdgeWs s = true) ∧
    (∀ s, r.InstrumentType = some s → noEdgeWs s = true) ∧
    (∀ s, r.Exchange = some s → noEdgeWs s = true) := by
  obtain ⟨x, hx, hS, hI, hE⟩ := mem_cleanPipeline_noFix activeOnly m ref r h
  refine ⟨?_, ?_, ?_⟩
  · intro s hs
    rw [hS] at hs
    simp only [normalizeRow, Option.some.injEq] at hs
    rw [← hs]
    exact noEdgeWs_strip _
  · intro s hs
    rw [hI] at hs
    simp only [normalizeRow, Option.some.injEq] at hs
    rw [← hs]
    exact noEdgeWs_strip _
  · intro s hs
    rw [hE] at hs
    by_cases hex : strip (toStr x.Exchange) = ""
    · simp [normalizeRow, hex] at hs
    · simp only [normalizeRow, if_neg hex, Option.some.injEq] at hs
      rw [← hs]
      exact noEdgeWs_strip _

/-- C8 witness market table. -/
def c8wm : List Row := [mkRow (some "AAPL") (some "Stock") (some "NASDAQ")]

/-- C8 witness reference table. -/
def c8wref : List RefRow :=
  [mkRef (some "AAPL") (some "Stock") (some "NASDAQ") (some "Active")]

/-- C8 witness output row. -/
def c8wout : CRow :=
  ⟨some "AAPL", some "Stock", some "NASDAQ", some 150, some 155, some 149,
   some 154, some 1000, some 10, some (2024, 4, 1)⟩

/-- C8 witness: the amended theorem applied to a concrete output row. -/
theorem c8_wit : noEdgeWs "AAPL" = true :=
  (c8_thm true c8wm c8wref c8wout (by decide)).1 "AAPL" rfl

end MDC
